import Mathlib

/-
Verification of the metric_dbscan library: a shallow embedding of the
vantage-point tree (src/metric_dbscan/locator/vantage_point_tree.py) and the
DBSCAN driver (src/metric_dbscan/dbscan.py), with theorems settling the
specified properties.

Modelling conventions:
* Python floats are modelled as rationals (ℚ); all distances and thresholds
  are exact rationals.
* Indexed items are opaque values of a type with decidable equality.
* `random.shuffle` is modelled by an abstract oracle `sh : ℕ → List α → List α`
  indexed by a call counter that is threaded through the construction; since
  `random.shuffle` always produces a permutation of its input, the oracle's
  answer is used only when it is a permutation of the list being shuffled
  (`shuffleSafe`), so every genuine shuffle outcome is representable.
* Bounded recursion (the tree build, the DBSCAN expansion loop) is expressed
  with an explicit structural fuel so that all definitions evaluate inside the
  kernel; the fuel bounds are generous and provably irrelevant
  (`vp_insert_fuel_irrelevant`), matching the terminating Python recursion.
-/

namespace MetricDbscan

/-- Decidable equality for `Except`, used to evaluate the model on concrete
inputs. -/
instance {ε α : Type} [DecidableEq ε] [DecidableEq α] :
    DecidableEq (Except ε α) := fun a b =>
  match a, b with
  | Except.error e1, Except.error e2 =>
    if h : e1 = e2 then Decidable.isTrue (congrArg Except.error h)
    else Decidable.isFalse (fun hc => h (Except.error.inj hc))
  | Except.error _, Except.ok _ => Decidable.isFalse (fun hc => Except.noConfusion hc)
  | Except.ok _, Except.error _ => Decidable.isFalse (fun hc => Except.noConfusion hc)
  | Except.ok v1, Except.ok v2 =>
    if h : v1 = v2 then Decidable.isTrue (congrArg Except.ok h)
    else Decidable.isFalse (fun hc => h (Except.ok.inj hc))

/-- A distance function satisfying the metric axioms: non-negativity, identity
of indiscernibles, symmetry and the triangle inequality. -/
structure IsMetric {α : Type} (d : α → α → ℚ) : Prop where
  nonneg : ∀ x y, 0 ≤ d x y
  eq_iff : ∀ x y, d x y = 0 ↔ x = y
  symm : ∀ x y, d x y = d y x
  triangle : ∀ x y z, d x z ≤ d x y + d y z

/-- Construction parameters of `VantagePointTree.__init__`
(max_items_per_node, max_depth, min_split_fraction, max_shuffle_count). -/
structure VPParams where
  max_items_per_node : ℕ
  max_depth : ℕ
  min_split_fraction : ℚ
  max_shuffle_count : ℕ
  deriving DecidableEq

/-- The default keyword arguments of `VantagePointTree.__init__`:
max_items_per_node=10, max_depth=20, min_split_fraction=0.01,
max_shuffle_count=5. -/
def defaultVPParams : VPParams := ⟨10, 20, 1/100, 5⟩

/-- Python's `statistics.median`: sort ascending; middle element for odd
length, mean of the two middle elements for even length.  (On the empty list
Python raises StatisticsError; the model returns 0 there, a case never reached
by the tree construction, which only splits lists of at least two items.) -/
def medianOf (l : List ℚ) : ℚ :=
  let s := l.insertionSort (· ≤ ·)
  let n := l.length
  if n % 2 = 1 then s.getD (n / 2) 0
  else (s.getD (n / 2 - 1) 0 + s.getD (n / 2) 0) / 2

/-- `VantagePointTree._split_nearby_distant`: pair every item with its
distance to the anchor, form the median-threshold and mean-threshold
partitions, compute each candidate's balance ratio
min(|near|,|far|)/max(|near|,|far|), and return the candidate with the larger
ratio (the median candidate only when its ratio is strictly larger) together
with its statistic as the threshold. -/
def split_nearby_distant {α : Type} (d : α → α → ℚ) (anchor : α)
    (items : List α) : List α × List α × ℚ :=
  let distances_with_items := items.map (fun item => (d anchor item, item))
  let distances := distances_with_items.map Prod.fst
  let median_distance := medianOf distances
  let mean_distance := distances.sum / (distances.length : ℚ)
  let median_nearby :=
    (distances_with_items.filter (fun p => decide (p.1 ≤ median_distance))).map Prod.snd
  let median_distant :=
    (distances_with_items.filter (fun p => decide (median_distance < p.1))).map Prod.snd
  let mean_nearby :=
    (distances_with_items.filter (fun p => decide (p.1 ≤ mean_distance))).map Prod.snd
  let mean_distant :=
    (distances_with_items.filter (fun p => decide (mean_distance < p.1))).map Prod.snd
  let median_top := min median_nearby.length median_distant.length
  let median_bottom := max median_nearby.length median_distant.length
  let median_split_ratio := (median_top : ℚ) / (median_bottom : ℚ)
  let mean_top := min mean_nearby.length mean_distant.length
  let mean_bottom := max mean_nearby.length mean_distant.length
  let mean_split_ratio := (mean_top : ℚ) / (mean_bottom : ℚ)
  if mean_split_ratio < median_split_ratio then
    (median_nearby, median_distant, median_distance)
  else
    (mean_nearby, mean_distant, mean_distance)

/-- Guard on the abstract shuffle oracle: `random.shuffle` always produces a
permutation of its input, so an oracle answer that is not a permutation is
ignored (the list is left unchanged).  Every genuine shuffle outcome is
therefore representable by some oracle. -/
def shuffleSafe {α : Type} [DecidableEq α] (sh : ℕ → List α → List α)
    (n : ℕ) (l : List α) : List α :=
  let l2 := sh n l
  if l2.Perm l then l2 else l

/-- State produced by the partition-retry loop inside
`VantagePointTree.insert`: the (possibly shuffled) working item list, the
nearby/distant partition and threshold from the last split attempt, whether
the partition was accepted, and the shuffle-oracle counter. -/
structure SplitResult (α : Type) where
  items : List α
  nearby : List α
  distant : List α
  threshold : ℚ
  ok : Bool
  ctr : ℕ

/-- The `while shuffle_count < max_shuffle_count and not partition_ok` loop of
`VantagePointTree.insert`: split on the head anchor, accept iff both sides
have at least `len(items) * min_split_fraction` items, otherwise shuffle and
retry.  `fuel` is the number of remaining split attempts
(`max_shuffle_count - shuffle_count`); as in the Python code, the final failed
attempt still shuffles the list before giving up. -/
def splitLoop {α : Type} [DecidableEq α] (d : α → α → ℚ) (msf : ℚ)
    (sh : ℕ → List α → List α) : ℕ → List α → ℕ → SplitResult α
  | 0, items, ctr => ⟨items, [], [], 0, false, ctr⟩
  | fuel + 1, items, ctr =>
    match items with
    | [] => ⟨[], [], [], 0, false, ctr⟩
    | a :: rest =>
      let s := split_nearby_distant d a rest
      let min_split_count : ℚ := ((a :: rest).length : ℚ) * msf
      if (s.1.length : ℚ) < min_split_count ∨ (s.2.1.length : ℚ) < min_split_count then
        splitLoop d msf sh fuel (shuffleSafe sh ctr (a :: rest)) (ctr + 1)
      else
        ⟨a :: rest, s.1, s.2.1, s.2.2, true, ctr⟩

/-- The shape of a fully built `VantagePointTree`: either a leaf holding
`_local_items`, or an inner node with `_anchor`, `_threshold_distance` and the
`_nearby_children` / `_distant_children` subtrees. -/
inductive VantagePointTree (α : Type) where
  | leaf (local_items : List α)
  | node (anchor : α) (threshold_distance : ℚ)
      (nearby_children distant_children : VantagePointTree α)
  deriving DecidableEq

/-- All items stored in a tree, anchor first, nearby subtree before distant
subtree (the order in which `find_items_within_radius` collects results). -/
def VantagePointTree.contents {α : Type} : VantagePointTree α → List α
  | .leaf items => items
  | .node a _ n f => a :: (n.contents ++ f.contents)

/-- `VantagePointTree.__len__`: item count of a leaf, or
1 + len(nearby) + len(distant) for an inner node. -/
def VantagePointTree.size {α : Type} : VantagePointTree α → ℕ
  | .leaf items => items.length
  | .node _ _ n f => 1 + n.size + f.size

/-- `VantagePointTree.insert` on a fresh node, with structural fuel bounding
the recursion depth (the item list shrinks strictly at every recursive call,
so fuel `items.length + 1` is always enough; see `vp_insert_fuel_irrelevant`).
Bailout to a leaf when the depth exceeds `max_depth` or fewer than
`max_items_per_node` items remain; otherwise run the partition-retry loop and
either build an inner node (anchor = head of the working list, children built
by `_make_child` at depth+1) or store the working list as a leaf.  The
`match r.items with | [] => ...` branch is unreachable: the loop only accepts
partitions of non-empty lists (Python would raise IndexError there). -/
def vp_insert_fuel {α : Type} [DecidableEq α] (d : α → α → ℚ) (p : VPParams)
    (sh : ℕ → List α → List α) : ℕ → ℕ → List α → ℕ → VantagePointTree α × ℕ
  | 0, _, items, ctr => (VantagePointTree.leaf items, ctr)
  | fuel + 1, depth, items, ctr =>
    if p.max_depth < depth ∨ items.length < p.max_items_per_node then
      (VantagePointTree.leaf items, ctr)
    else
      let r := splitLoop d p.min_split_fraction sh p.max_shuffle_count items ctr
      if r.ok then
        match r.items with
        | [] => (VantagePointTree.leaf [], r.ctr)
        | a :: _ =>
          let n1 := vp_insert_fuel d p sh fuel (depth + 1) r.nearby r.ctr
          let n2 := vp_insert_fuel d p sh fuel (depth + 1) r.distant n1.2
          (VantagePointTree.node a r.threshold n1.1 n2.1, n2.2)
      else
        (VantagePointTree.leaf r.items, r.ctr)

/-- `VantagePointTree.insert` called on an empty node with the given depth:
the fuel `items.length + 1` always suffices (`vp_insert_fuel_irrelevant`). -/
def vp_insert {α : Type} [DecidableEq α] (d : α → α → ℚ) (p : VPParams)
    (sh : ℕ → List α → List α) (depth : ℕ) (items : List α) (ctr : ℕ) :
    VantagePointTree α × ℕ :=
  vp_insert_fuel d p sh (items.length + 1) depth items ctr

/-- `VantagePointTree.__init__`: validate `max_items_per_node` (must be at
least 3, otherwise ValueError) before any distance is computed, then insert
the items into the fresh root (depth 0). -/
def vp_construct {α : Type} [DecidableEq α] (d : α → α → ℚ) (p : VPParams)
    (sh : ℕ → List α → List α) (items : List α) :
    Except String (VantagePointTree α × ℕ) :=
  if p.max_items_per_node < 3 then
    Except.error "max_items_per_node must be at least 3."
  else
    Except.ok (vp_insert d p sh 0 items 0)

/-- The helper `_items_within_distance`: filter a list, keeping items with
distance to the center at most (resp. strictly less than) the radius,
depending on `include_boundary`. -/
def items_within_distance {α : Type} (items : List α) (center : α) (radius : ℚ)
    (metric : α → α → ℚ) (include_boundary : Bool) : List α :=
  if include_boundary then
    items.filter (fun x => decide (metric center x ≤ radius))
  else
    items.filter (fun x => decide (metric center x < radius))

/-- `VantagePointTree.find_items_within_radius`: on a leaf, scan the local
items; on an inner node, test the anchor against the ball, descend into the
nearby child iff `d(anchor,center) ≤ threshold + radius`, and into the distant
child unless `d(anchor,center) + radius < threshold`. -/
def VantagePointTree.find_items_within_radius {α : Type} (metric : α → α → ℚ) :
    VantagePointTree α → α → ℚ → Bool → List α
  | .leaf items, center, radius, ib =>
    items_within_distance items center radius metric ib
  | .node anchor τ nearChild farChild, center, radius, ib =>
    let distance_to_center := metric anchor center
    let anchor_hits : List α :=
      if distance_to_center < radius ∨ (distance_to_center = radius ∧ ib = true) then
        [anchor]
      else []
    let nearby_items :=
      anchor_hits ++
        (if distance_to_center ≤ τ + radius then
          nearChild.find_items_within_radius metric center radius ib
        else [])
    let distant_items :=
      if distance_to_center + radius < τ then []
      else farChild.find_items_within_radius metric center radius ib
    nearby_items ++ distant_items

/-- Construction invariant of an inner node: every item of the nearby subtree
is within the threshold distance of the anchor, every item of the distant
subtree is strictly beyond it. -/
inductive VantagePointTree.WF {α : Type} (d : α → α → ℚ) :
    VantagePointTree α → Prop
  | leaf (items : List α) : WF d (.leaf items)
  | node (a : α) (τ : ℚ) (n f : VantagePointTree α)
      (hn : ∀ x ∈ n.contents, d a x ≤ τ)
      (hf : ∀ x ∈ f.contents, τ < d a x)
      (wn : WF d n) (wf : WF d f) : WF d (.node a τ n f)

/-- Object-level state of a `VantagePointTree` instance: the `_local_items`
field (None or a list) and the inner-node fields `_anchor`,
`_threshold_distance`, `_nearby_children`, `_distant_children` (all None, or
all set, which is the only way `insert` ever assigns them).  A fresh node has
both components `none`; note that `insert` never clears `_local_items`, so
both components can be populated at once. -/
inductive VPObj (α : Type) where
  | mk (local_items : Option (List α))
      (inner : Option (α × ℚ × VPObj α × VPObj α))

/-- The object state of a cleanly built tree (as produced by `_make_child` on
a fresh node). -/
def VantagePointTree.toObj {α : Type} : VantagePointTree α → VPObj α
  | .leaf items => VPObj.mk (some items) none
  | .node a τ n f => VPObj.mk none (some (a, τ, n.toObj, f.toObj))

/-- `VantagePointTree.insert` as it acts on an arbitrary object state.  The
guard at the top of `insert` raises RuntimeError iff `_anchor`,
`_nearby_children` or `_distant_children` is set, i.e. iff the node is an
inner node; it does NOT test `_local_items`, so a populated leaf passes the
guard and `insert` proceeds, overwriting `_local_items` in the bailout and
failed-partition branches and leaving it in place when an inner node is built.
`depth` is the node's `_depth` field (0 for a tree built by the public
constructor). -/
def vp_obj_insert {α : Type} [DecidableEq α] (d : α → α → ℚ) (p : VPParams)
    (sh : ℕ → List α → List α) (depth : ℕ) (st : VPObj α) (items : List α)
    (ctr : ℕ) : Except String (VPObj α × ℕ) :=
  match st with
  | VPObj.mk _ (some _) =>
    Except.error "Vantage point tree is already populated.  You can only call insert() on an empty tree."
  | VPObj.mk loc none =>
    if p.max_depth < depth ∨ items.length < p.max_items_per_node then
      Except.ok (VPObj.mk (some items) none, ctr)
    else
      let r := splitLoop d p.min_split_fraction sh p.max_shuffle_count items ctr
      if r.ok then
        match r.items with
        | [] => Except.ok (VPObj.mk loc none, r.ctr)
        | a :: _ =>
          let n1 := vp_insert d p sh (depth + 1) r.nearby r.ctr
          let n2 := vp_insert d p sh (depth + 1) r.distant n1.2
          Except.ok (VPObj.mk loc (some (a, r.threshold, n1.1.toObj, n2.1.toObj)), n2.2)
      else
        Except.ok (VPObj.mk (some r.items) none, r.ctr)

/- ------------------------------------------------------------------ -/
/- The DBSCAN driver (src/metric_dbscan/dbscan.py).                   -/
/- ------------------------------------------------------------------ -/

/-- The `while len(potential_expansion_items) > 0` expansion loop of
`cluster_items`.  The frontier is a duplicate-free list modelling the Python
set `potential_expansion_items`; `set.pop()` returns an unspecified element,
resolved here deterministically as the minimum.  Each iteration moves the
popped id into `seen` (`items_processed_this_cluster`); an OUTLIER-labelled id
becomes a border member of the current cluster, an id labelled by another
cluster is left alone, and an unlabelled id is labelled and, when it is a core
item (at least `minSize` neighbors), its unseen neighbors join the frontier.
Every iteration adds a fresh id to `seen`, so the loop runs at most
`numItems` times; `fuel` (instantiated as `numItems + 1`) is never
exhausted. -/
def expandCluster (findN : ℕ → List ℕ) (minSize : ℤ) (cid : ℤ) :
    ℕ → List (Option ℤ) → List ℕ → List ℕ → List (Option ℤ)
  | 0, labels, _, _ => labels
  | fuel + 1, labels, frontier, seen =>
    match frontier with
    | [] => labels
    | x :: xs =>
      let j := xs.foldl Nat.min x
      let frontier1 := (x :: xs).erase j
      let seen1 := j :: seen
      match labels.getD j none with
      | some l =>
        if l = -1 then
          expandCluster findN minSize cid fuel (labels.set j (some cid)) frontier1 seen1
        else
          expandCluster findN minSize cid fuel labels frontier1 seen1
      | none =>
        let labels1 := labels.set j (some cid)
        let more := findN j
        if minSize ≤ (more.length : ℤ) then
          let frontier2 := more.foldl
            (fun acc pid => if pid ∈ seen1 ∨ pid ∈ acc then acc else acc ++ [pid])
            frontier1
          expandCluster findN minSize cid fuel labels1 frontier2 seen1
        else
          expandCluster findN minSize cid fuel labels1 frontier1 seen1

/-- The `for current_item_id in trange(num_items)` loop of `cluster_items`:
skip labelled items, label sparse-neighborhood items OUTLIER (-1), and start a
new cluster from each unlabelled core item, seeding the frontier with its
neighborhood minus itself (`set(neighbor_ids)` then `.remove(current_item_id)`;
the query center is the item itself so its id is always in the result). -/
def dbscanLoop (findN : ℕ → List ℕ) (minSize : ℤ) (numItems : ℕ) :
    List ℕ → List (Option ℤ) × ℤ → List (Option ℤ) × ℤ
  | [], st => st
  | i :: rest, st =>
    match st.1.getD i none with
    | some _ => dbscanLoop findN minSize numItems rest st
    | none =>
      let nbrs := findN i
      if (nbrs.length : ℤ) < minSize then
        dbscanLoop findN minSize numItems rest (st.1.set i (some (-1)), st.2)
      else
        let labels1 := st.1.set i (some st.2)
        let frontier := nbrs.dedup.erase i
        let labels2 := expandCluster findN minSize st.2 (numItems + 1) labels1 frontier [i]
        dbscanLoop findN minSize numItems rest (labels2, st.2 + 1)

/-- The raw label vector produced by the expansion phase of `cluster_items`,
before canonicalization.  Every position is assigned by the outer loop, so the
final `Option.getD (-1)` only erases the (never materialized) unset marker. -/
def dbscanRaw (findN : ℕ → List ℕ) (minSize : ℤ) (numItems : ℕ) : List ℤ :=
  ((dbscanLoop findN minSize numItems (List.range numItems)
      (List.replicate numItems none, 0)).1).map (fun o => o.getD (-1))

/-- The distinct non-outlier labels of a vector in first-occurrence order:
the keys of `collections.Counter(initial_labels)` after popping -1. -/
def distinctNonOutlier (v : List ℤ) : List ℤ :=
  v.foldl (fun acc x => if x = -1 ∨ x ∈ acc then acc else acc ++ [x]) []

/-- Descending lexicographic order on (size, label) pairs: exactly the order
produced by Python's `sorted(sizes_and_labels, reverse=True)` — descending
size, ties broken by descending label. -/
def DescSL (p q : ℕ × ℤ) : Prop := q.1 < p.1 ∨ (p.1 = q.1 ∧ q.2 ≤ p.2)

instance : DecidableRel DescSL := fun p q => by
  unfold DescSL; infer_instance

instance : IsTotal (ℕ × ℤ) DescSL where
  total p q := by
    rcases lt_trichotomy p.1 q.1 with h | h | h
    · exact Or.inr (Or.inl h)
    · rcases le_total p.2 q.2 with h2 | h2
      · exact Or.inr (Or.inr ⟨h.symm, h2⟩)
      · exact Or.inl (Or.inr ⟨h, h2⟩)
    · exact Or.inl (Or.inl h)

instance : IsTrans (ℕ × ℤ) DescSL where
  trans p q r hpq hqr := by
    rcases hpq with h1 | ⟨e1, l1⟩
    · rcases hqr with h2 | ⟨e2, l2⟩
      · exact Or.inl (h2.trans h1)
      · exact Or.inl (e2 ▸ h1)
    · rcases hqr with h2 | ⟨e2, l2⟩
      · exact Or.inl (e1 ▸ h2)
      · exact Or.inr ⟨e1.trans e2, l2.trans l1⟩

instance : IsAntisymm (ℕ × ℤ) DescSL where
  antisymm p q hpq hqp := by
    rcases hpq with h1 | ⟨e1, l1⟩
    · rcases hqp with h2 | ⟨e2, l2⟩
      · exact absurd h1 (lt_asymm h2)
      · exact absurd h1 (e2 ▸ lt_irrefl _)
    · rcases hqp with h2 | ⟨e2, l2⟩
      · exact absurd h2 (e1 ▸ lt_irrefl _)
      · exact Prod.ext e1 (le_antisymm l2 l1)

/-- The `(size, cid)` pairs of `_remap_by_size`, sorted as by
`sorted(sizes_and_labels, reverse=True)`: descending size, ties broken by
descending original label id. -/
def sortedSizesAndLabels (v : List ℤ) : List (ℕ × ℤ) :=
  List.insertionSort DescSL
    ((distinctNonOutlier v).map (fun l => (v.count l, l)))

/-- `_remap_by_size`: count items per non-outlier label, sort the labels by
descending count (ties: descending label), assign new ids 0..K-1 in that
order, keep -1 for outliers, and rewrite the vector. -/
def remap_by_size (initial_labels : List ℤ) : List ℤ :=
  let sorted_old_labels := (sortedSizesAndLabels initial_labels).map Prod.snd
  initial_labels.map (fun old =>
    if old = -1 then -1 else (sorted_old_labels.indexOf old : ℤ))

/-- The expansion phase of `cluster_items` for valid parameters
(`_build_locator_function` composed with the main loop): wrap the items with
their ids, build the VantagePointTree with default parameters over the wrapped
items under the wrapped metric, and run the DBSCAN expansion against closed-ball
radius queries centered at the items themselves. -/
def cluster_items_raw {α : Type} [DecidableEq α] [Inhabited α] (items : List α)
    (distance_function : α → α → ℚ) (minimum_cluster_size : ℤ)
    (maximum_neighbor_distance : ℚ) (sh : ℕ → List (ℕ × α) → List (ℕ × α)) :
    List ℤ :=
  let wrapped_items := items.enum
  let wrapped_metric := fun (x y : ℕ × α) => distance_function x.2 y.2
  let tree := (vp_insert wrapped_metric defaultVPParams sh 0 wrapped_items 0).1
  let findN := fun (qid : ℕ) =>
    (tree.find_items_within_radius wrapped_metric
      (wrapped_items.getD qid (0, default)) maximum_neighbor_distance true).map Prod.fst
  dbscanRaw findN minimum_cluster_size items.length

/-- `cluster_items`: validate the parameters (ValueError when
minimum_cluster_size ≤ 1 or maximum_neighbor_distance ≤ 0, before the index is
built or the metric is called — note the result is the same for every metric
and item list when a parameter is invalid), then run the expansion and
canonicalize with `_remap_by_size`. -/
def cluster_items {α : Type} [DecidableEq α] [Inhabited α] (items : List α)
    (distance_function : α → α → ℚ) (minimum_cluster_size : ℤ)
    (maximum_neighbor_distance : ℚ) (sh : ℕ → List (ℕ × α) → List (ℕ × α)) :
    Except String (List ℤ) :=
  if minimum_cluster_size ≤ 1 then
    Except.error "DBSCAN: minimum cluster size must be at least 2."
  else if maximum_neighbor_distance ≤ 0 then
    Except.error "DBSCAN: maximum neighbor distance must be positive"
  else
    Except.ok (remap_by_size (cluster_items_raw items distance_function
      minimum_cluster_size maximum_neighbor_distance sh))

/-- The absolute-difference metric on ℤ, used as the concrete metric in
witnesses and counterexamples (the spec's "integers on the real line").
Written via `Int.natAbs` so that it evaluates inside the kernel. -/
def intDist (x y : ℤ) : ℚ := ((x - y).natAbs : ℚ)

/-- The identity shuffle oracle (one concrete shuffle outcome). -/
def idSh {β : Type} : ℕ → List β → List β := fun _ l => l

/- ------------------------------------------------------------------ -/
/- Lemmas about the node-splitting helpers.                           -/
/- ------------------------------------------------------------------ -/

theorem mem_split_le {α : Type} (d : α → α → ℚ) (a : α) (l : List α) (m : ℚ)
    {x : α}
    (h : x ∈ ((l.map (fun it => (d a it, it))).filter
        (fun p => decide (p.1 ≤ m))).map Prod.snd) :
    d a x ≤ m := by
  rcases List.mem_map.1 h with ⟨p, hp, hpx⟩
  rcases List.mem_filter.1 hp with ⟨hpl, hple⟩
  rcases List.mem_map.1 hpl with ⟨it, _, hit⟩
  subst hit
  subst hpx
  exact of_decide_eq_true hple

theorem mem_split_gt {α : Type} (d : α → α → ℚ) (a : α) (l : List α) (m : ℚ)
    {x : α}
    (h : x ∈ ((l.map (fun it => (d a it, it))).filter
        (fun p => decide (m < p.1))).map Prod.snd) :
    m < d a x := by
  rcases List.mem_map.1 h with ⟨p, hp, hpx⟩
  rcases List.mem_filter.1 hp with ⟨hpl, hple⟩
  rcases List.mem_map.1 hpl with ⟨it, _, hit⟩
  subst hit
  subst hpx
  exact of_decide_eq_true hple

theorem split_parts_perm {α : Type} (d : α → α → ℚ) (a : α) (l : List α)
    (m : ℚ) :
    (((l.map (fun it => (d a it, it))).filter
        (fun p => decide (p.1 ≤ m))).map Prod.snd ++
     ((l.map (fun it => (d a it, it))).filter
        (fun p => decide (m < p.1))).map Prod.snd).Perm l := by
  set dwi := l.map (fun it => (d a it, it)) with hdwi
  have hneg : (dwi.filter (fun p => decide (m < p.1))) =
      (dwi.filter (fun p => !(decide (p.1 ≤ m)))) := by
    apply List.filter_congr
    intro p _
    rw [← decide_not]
    exact decide_eq_decide.mpr not_le.symm
  rw [hneg, ← List.map_append]
  have hperm := List.filter_append_perm (fun p => decide (p.1 ≤ m)) dwi
  refine (hperm.map Prod.snd).trans ?_
  have h2 : dwi.map Prod.snd = l := by
    rw [hdwi, List.map_map]
    have hc : (Prod.snd ∘ fun it : α => (d a it, it)) = id := rfl
    rw [hc, List.map_id]
  rw [h2]

theorem split_nearby_distant_coherent {α : Type} (d : α → α → ℚ) (a : α)
    (l : List α) :
    ∃ m : ℚ, split_nearby_distant d a l =
      (((l.map (fun it => (d a it, it))).filter
          (fun p => decide (p.1 ≤ m))).map Prod.snd,
       ((l.map (fun it => (d a it, it))).filter
          (fun p => decide (m < p.1))).map Prod.snd,
       m) := by
  dsimp only [split_nearby_distant]
  split
  · exact ⟨_, rfl⟩
  · exact ⟨_, rfl⟩

theorem split_nearby_distant_perm {α : Type} (d : α → α → ℚ) (a : α)
    (l : List α) :
    ((split_nearby_distant d a l).1 ++ (split_nearby_distant d a l).2.1).Perm l := by
  rcases split_nearby_distant_coherent d a l with ⟨m, hm⟩
  rw [hm]
  exact split_parts_perm d a l m

theorem split_nearby_distant_nearby_le {α : Type} (d : α → α → ℚ) (a : α)
    (l : List α) {x : α} (h : x ∈ (split_nearby_distant d a l).1) :
    d a x ≤ (split_nearby_distant d a l).2.2 := by
  rcases split_nearby_distant_coherent d a l with ⟨m, hm⟩
  rw [hm] at h ⊢
  exact mem_split_le d a l m h

theorem split_nearby_distant_distant_gt {α : Type} (d : α → α → ℚ) (a : α)
    (l : List α) {x : α} (h : x ∈ (split_nearby_distant d a l).2.1) :
    (split_nearby_distant d a l).2.2 < d a x := by
  rcases split_nearby_distant_coherent d a l with ⟨m, hm⟩
  rw [hm] at h ⊢
  exact mem_split_gt d a l m h

theorem shuffleSafe_perm {α : Type} [DecidableEq α]
    (sh : ℕ → List α → List α) (n : ℕ) (l : List α) :
    (shuffleSafe sh n l).Perm l := by
  dsimp only [shuffleSafe]
  split
  · assumption
  · exact List.Perm.refl l

theorem splitLoop_spec {α : Type} [DecidableEq α] (d : α → α → ℚ) (msf : ℚ)
    (sh : ℕ → List α → List α) :
    ∀ (fuel : ℕ) (items : List α) (ctr : ℕ),
      ((splitLoop d msf sh fuel items ctr).items).Perm items ∧
      ((splitLoop d msf sh fuel items ctr).ok = true →
        ∃ a rest, (splitLoop d msf sh fuel items ctr).items = a :: rest ∧
          split_nearby_distant d a rest =
            ((splitLoop d msf sh fuel items ctr).nearby,
             (splitLoop d msf sh fuel items ctr).distant,
             (splitLoop d msf sh fuel items ctr).threshold)) := by
  intro fuel
  induction fuel with
  | zero =>
    intro items ctr
    exact ⟨List.Perm.refl items, by simp [splitLoop]⟩
  | succ fuel ih =>
    intro items ctr
    match items with
    | [] => exact ⟨List.Perm.refl [], by simp [splitLoop]⟩
    | a :: rest =>
      simp only [splitLoop]
      split
      · rcases ih (shuffleSafe sh ctr (a :: rest)) (ctr + 1) with ⟨hperm, hok⟩
        exact ⟨hperm.trans (shuffleSafe_perm sh ctr (a :: rest)), hok⟩
      · refine ⟨List.Perm.refl _, fun _ => ⟨a, rest, rfl, ?_⟩⟩
        rfl

/- ------------------------------------------------------------------ -/
/- Structural lemmas about the tree construction.                     -/
/- ------------------------------------------------------------------ -/

theorem vp_insert_fuel_contents_perm {α : Type} [DecidableEq α]
    (d : α → α → ℚ) (p : VPParams) (sh : ℕ → List α → List α) :
    ∀ (fuel depth : ℕ) (items : List α) (ctr : ℕ),
      (((vp_insert_fuel d p sh fuel depth items ctr).1).contents).Perm items := by
  intro fuel
  induction fuel with
  | zero =>
    intro depth items ctr
    exact List.Perm.refl items
  | succ fuel ih =>
    intro depth items ctr
    simp only [vp_insert_fuel]
    split
    · exact List.Perm.refl items
    · rcases splitLoop_spec d p.min_split_fraction sh p.max_shuffle_count items ctr
        with ⟨hperm, hok⟩
      split
      case isTrue hcond =>
        split
        case h_1 heq =>
          rw [heq] at hperm
          exact hperm
        case h_2 a rest heq =>
          rcases hok hcond with ⟨a', rest', hitems, hsplit⟩
          rw [heq] at hitems
          injection hitems with ha hrest
          subst ha
          subst hrest
          have hsp := split_nearby_distant_perm d a rest
          rw [hsplit] at hsp
          simp only [VantagePointTree.contents]
          refine (((ih _ _ _).append (ih _ _ _)).cons a).trans ?_
          refine (hsp.cons a).trans ?_
          rw [← heq]
          exact hperm
      case isFalse =>
        exact hperm

theorem vp_insert_fuel_wf {α : Type} [DecidableEq α]
    (d : α → α → ℚ) (p : VPParams) (sh : ℕ → List α → List α) :
    ∀ (fuel depth : ℕ) (items : List α) (ctr : ℕ),
      VantagePointTree.WF d (vp_insert_fuel d p sh fuel depth items ctr).1 := by
  intro fuel
  induction fuel with
  | zero =>
    intro depth items ctr
    exact VantagePointTree.WF.leaf items
  | succ fuel ih =>
    intro depth items ctr
    simp only [vp_insert_fuel]
    split
    · exact VantagePointTree.WF.leaf items
    · rcases splitLoop_spec d p.min_split_fraction sh p.max_shuffle_count items ctr
        with ⟨_, hok⟩
      split
      case isTrue hcond =>
        split
        case h_1 => exact VantagePointTree.WF.leaf []
        case h_2 a rest heq =>
          rcases hok hcond with ⟨a', rest', hitems, hsplit⟩
          rw [heq] at hitems
          injection hitems with ha hrest
          subst ha
          subst hrest
          refine VantagePointTree.WF.node a _ _ _ ?_ ?_ (ih _ _ _) (ih _ _ _)
          · intro x hx
            have hx2 := (vp_insert_fuel_contents_perm d p sh fuel (depth + 1) _ _).mem_iff.1 hx
            have hle := split_nearby_distant_nearby_le d a rest
              (x := x) (by rw [hsplit]; exact hx2)
            rw [hsplit] at hle
            exact hle
          · intro x hx
            have hx2 := (vp_insert_fuel_contents_perm d p sh fuel (depth + 1) _ _).mem_iff.1 hx
            have hgt := split_nearby_distant_distant_gt d a rest
              (x := x) (by rw [hsplit]; exact hx2)
            rw [hsplit] at hgt
            exact hgt
      case isFalse =>
        exact VantagePointTree.WF.leaf _

theorem size_eq_contents_length {α : Type} (t : VantagePointTree α) :
    t.size = t.contents.length := by
  induction t with
  | leaf items => rfl
  | node a τ n f ihn ihf =>
    simp only [VantagePointTree.size, VantagePointTree.contents, List.length_cons,
      List.length_append, ihn, ihf]
    omega

/-- The explicit fuel of `vp_insert_fuel` is irrelevant as soon as it exceeds
the item count: the recursion strictly decreases the item count, so the
Python recursion (which has no fuel) is faithfully represented by
`vp_insert`. -/
theorem vp_insert_fuel_irrelevant {α : Type} [DecidableEq α]
    (d : α → α → ℚ) (p : VPParams) (sh : ℕ → List α → List α) :
    ∀ (f1 f2 depth : ℕ) (items : List α) (ctr : ℕ),
      items.length < f1 → items.length < f2 →
      vp_insert_fuel d p sh f1 depth items ctr =
        vp_insert_fuel d p sh f2 depth items ctr := by
  intro f1
  induction f1 with
  | zero =>
    intro f2 depth items ctr h1 h2
    omega
  | succ f1 ih =>
    intro f2 depth items ctr h1 h2
    match f2 with
    | 0 => omega
    | f2 + 1 =>
      simp only [vp_insert_fuel]
      split
      · rfl
      · rcases splitLoop_spec d p.min_split_fraction sh p.max_shuffle_count items ctr
          with ⟨hperm, hok⟩
        split
        case isTrue hcond =>
          rcases hok hcond with ⟨a', rest', hitems, hsplit⟩
          have hlen : rest'.length + 1 = items.length := by
            have := hperm.length_eq
            rw [hitems] at this
            simpa using this
          have hsp := split_nearby_distant_perm d a' rest'
          rw [hsplit] at hsp
          have hnb : (splitLoop d p.min_split_fraction sh p.max_shuffle_count items ctr).nearby.length
              ≤ rest'.length := by
            have := hsp.length_eq
            simp only [List.length_append] at this
            omega
          have hdist : (splitLoop d p.min_split_fraction sh p.max_shuffle_count items ctr).distant.length
              ≤ rest'.length := by
            have := hsp.length_eq
            simp only [List.length_append] at this
            omega
          have hnf1 : (splitLoop d p.min_split_fraction sh p.max_shuffle_count items ctr).nearby.length < f1 := by
            omega
          have hnf2 : (splitLoop d p.min_split_fraction sh p.max_shuffle_count items ctr).nearby.length < f2 := by
            omega
          have hdf1 : (splitLoop d p.min_split_fraction sh p.max_shuffle_count items ctr).distant.length < f1 := by
            omega
          have hdf2 : (splitLoop d p.min_split_fraction sh p.max_shuffle_count items ctr).distant.length < f2 := by
            omega
          split
          case h_1 => rfl
          case h_2 a rest heq =>
            rw [ih _ (depth + 1) _ _ hnf1 hnf2, ih _ (depth + 1) _ _ hdf1 hdf2]
        case isFalse =>
          rfl

/- ------------------------------------------------------------------ -/
/- Range-query exactness.                                             -/
/- ------------------------------------------------------------------ -/

/-- The membership test of the query ball: closed when the boundary is
included, open otherwise. -/
def ball_pred {α : Type} (d : α → α → ℚ) (c : α) (r : ℚ) (ib : Bool) :
    α → Bool :=
  fun x => if ib then decide (d c x ≤ r) else decide (d c x < r)

theorem items_within_distance_eq_filter {α : Type} (items : List α) (c : α)
    (r : ℚ) (d : α → α → ℚ) (ib : Bool) :
    items_within_distance items c r d ib = items.filter (ball_pred d c r ib) := by
  cases ib <;> rfl

/-- On a well-formed tree, the pruning in `find_items_within_radius` is exact
for any symmetric distance satisfying the triangle inequality: the query
returns precisely the ball members among the stored items, in storage
order. -/
theorem find_eq_filter {α : Type} (d : α → α → ℚ)
    (hs : ∀ x y, d x y = d y x) (ht : ∀ x y z, d x z ≤ d x y + d y z)
    {t : VantagePointTree α} (hw : t.WF d) (c : α) (r : ℚ) (ib : Bool) :
    t.find_items_within_radius d c r ib =
      t.contents.filter (ball_pred d c r ib) := by
  induction hw with
  | leaf items =>
    exact items_within_distance_eq_filter items c r d ib
  | node a τ n f hn hf wn wfr ihn ihf =>
    dsimp only [VantagePointTree.find_items_within_radius, VantagePointTree.contents]
    rw [List.filter_cons, List.filter_append]
    have hanchor : (if d a c < r ∨ (d a c = r ∧ ib = true) then [a] else ([] : List α)) ++
        (n.contents.filter (ball_pred d c r ib) ++ f.contents.filter (ball_pred d c r ib)) =
        if ball_pred d c r ib a = true then
          a :: (n.contents.filter (ball_pred d c r ib) ++ f.contents.filter (ball_pred d c r ib))
        else n.contents.filter (ball_pred d c r ib) ++ f.contents.filter (ball_pred d c r ib) := by
      have hcond : (d a c < r ∨ (d a c = r ∧ ib = true)) ↔ ball_pred d c r ib a = true := by
        cases ib with
        | true =>
          simp only [ball_pred, if_true, decide_eq_true_eq, and_true]
          rw [hs c a]
          exact (le_iff_lt_or_eq).symm
        | false =>
          simp only [ball_pred, if_false, decide_eq_true_eq]
          rw [hs c a]
          simp
      by_cases hc : d a c < r ∨ (d a c = r ∧ ib = true)
      · rw [if_pos hc, if_pos (hcond.1 hc)]
        rfl
      · rw [if_neg hc, if_neg (fun hb => hc (hcond.2 hb))]
        rfl
    have hnear : (if d a c ≤ τ + r then n.find_items_within_radius d c r ib else []) =
        n.contents.filter (ball_pred d c r ib) := by
      by_cases hc : d a c ≤ τ + r
      · rw [if_pos hc, ihn]
      · rw [if_neg hc]
        symm
        rw [List.filter_eq_nil_iff]
        intro x hx
        have hxa : d a x ≤ τ := hn x hx
        have hfar : r < d c x := by
          have h1 : d a c ≤ d a x + d x c := ht a x c
          have h2 : d x c = d c x := hs x c
          have h3 : τ + r < d a c := lt_of_not_le hc
          linarith
        cases ib <;> simp [ball_pred, not_le, not_lt] <;> linarith
    have hfarside : (if d a c + r < τ then [] else f.find_items_within_radius d c r ib) =
        f.contents.filter (ball_pred d c r ib) := by
      by_cases hc : d a c + r < τ
      · rw [if_pos hc]
        symm
        rw [List.filter_eq_nil_iff]
        intro x hx
        have hxa : τ < d a x := hf x hx
        have hfar : r < d c x := by
          have h1 : d a x ≤ d a c + d c x := ht a c x
          linarith
        cases ib <;> simp [ball_pred, not_le, not_lt] <;> linarith
      · rw [if_neg hc, ihf]
    rw [hnear, hfarside, List.append_assoc, hanchor]

theorem intDist_abs (x y : ℤ) : intDist x y = |(x : ℚ) - (y : ℚ)| := by
  rw [intDist, Int.cast_natAbs]
  push_cast
  rfl

theorem intDist_isMetric : IsMetric intDist := by
  constructor
  · intro x y
    rw [intDist_abs]
    exact abs_nonneg _
  · intro x y
    rw [intDist_abs, abs_eq_zero, sub_eq_zero]
    exact Int.cast_inj
  · intro x y
    rw [intDist_abs, intDist_abs]
    exact abs_sub_comm _ _
  · intro x y z
    rw [intDist_abs, intDist_abs, intDist_abs]
    exact abs_sub_le _ _ _

theorem vp_construct_ok {α : Type} [DecidableEq α] {d : α → α → ℚ}
    {p : VPParams} {sh : ℕ → List α → List α} {items : List α}
    {t : VantagePointTree α} {ctr : ℕ}
    (h : vp_construct d p sh items = Except.ok (t, ctr)) :
    t = (vp_insert d p sh 0 items 0).1 := by
  unfold vp_construct at h
  by_cases hc : p.max_items_per_node < 3
  · rw [if_pos hc] at h
    exact Except.noConfusion h
  · rw [if_neg hc] at h
    have h2 := Except.ok.inj h
    rw [h2]

theorem vp_insert_contents_perm {α : Type} [DecidableEq α]
    (d : α → α → ℚ) (p : VPParams) (sh : ℕ → List α → List α)
    (depth : ℕ) (items : List α) (ctr : ℕ) :
    (((vp_insert d p sh depth items ctr).1).contents).Perm items :=
  vp_insert_fuel_contents_perm d p sh (items.length + 1) depth items ctr

theorem vp_insert_wf {α : Type} [DecidableEq α]
    (d : α → α → ℚ) (p : VPParams) (sh : ℕ → List α → List α)
    (depth : ℕ) (items : List α) (ctr : ℕ) :
    VantagePointTree.WF d (vp_insert d p sh depth items ctr).1 :=
  vp_insert_fuel_wf d p sh (items.length + 1) depth items ctr

/-- C1: for every finite item sequence, every metric, every VantagePointTree
built over it (any parameters accepted by the constructor, any shuffle
outcome), every center and every radius r ≥ 0, the closed-ball range query
(`include_boundary=True`) returns exactly the items at distance ≤ r from the
center: the pruning never discards a true neighbor and never admits a false
one. -/
theorem vptree_closed_ball_query_exact {α : Type} [DecidableEq α]
    (d : α → α → ℚ) (hm : IsMetric d) (p : VPParams)
    (sh : ℕ → List α → List α) (items : List α) (t : VantagePointTree α)
    (ctr : ℕ) (hbuild : vp_construct d p sh items = Except.ok (t, ctr))
    (c : α) (r : ℚ) (hr : 0 ≤ r) :
    (t.find_items_within_radius d c r true).Perm
      (items.filter (fun s => decide (d c s ≤ r))) := by
  rw [vp_construct_ok hbuild]
  rw [find_eq_filter d hm.symm hm.triangle
    (vp_insert_wf d p sh 0 items 0) c r true]
  have hb : ball_pred d c r true = (fun s => decide (d c s ≤ r)) := rfl
  rw [hb]
  exact (vp_insert_contents_perm d p sh 0 items 0).filter _

/-- Witness for C1 at a concrete input: the tree the constructor builds over
[0, 1, 5] with default parameters, queried with center 0 and radius 1. -/
theorem vptree_closed_ball_query_exact_witness :
    (((vp_insert intDist defaultVPParams idSh 0 [(0:ℤ), 1, 5] 0).1).find_items_within_radius
        intDist 0 1 true).Perm
      ([(0:ℤ), 1, 5].filter (fun s => decide (intDist 0 s ≤ 1))) :=
  vptree_closed_ball_query_exact intDist intDist_isMetric defaultVPParams idSh
    [(0:ℤ), 1, 5] _ 0 rfl 0 1 (by norm_num)

/-- C9: for the same trees, the open-ball query (`include_boundary=False`)
returns exactly the items at distance strictly less than r, i.e. the
closed-ball result minus the items at distance exactly r. -/
theorem vptree_open_ball_query {α : Type} [DecidableEq α]
    (d : α → α → ℚ) (hm : IsMetric d) (p : VPParams)
    (sh : ℕ → List α → List α) (items : List α) (t : VantagePointTree α)
    (ctr : ℕ) (hbuild : vp_construct d p sh items = Except.ok (t, ctr))
    (c : α) (r : ℚ) (hr : 0 ≤ r) :
    (t.find_items_within_radius d c r false).Perm
      (items.filter (fun s => decide (d c s < r))) ∧
    t.find_items_within_radius d c r false =
      (t.find_items_within_radius d c r true).filter
        (fun s => decide (d c s ≠ r)) := by
  rw [vp_construct_ok hbuild]
  have hwf := vp_insert_wf d p sh 0 items 0
  constructor
  · rw [find_eq_filter d hm.symm hm.triangle hwf c r false]
    have hb : ball_pred d c r false = (fun s => decide (d c s < r)) := rfl
    rw [hb]
    exact (vp_insert_contents_perm d p sh 0 items 0).filter _
  · rw [find_eq_filter d hm.symm hm.triangle hwf c r false,
      find_eq_filter d hm.symm hm.triangle hwf c r true]
    rw [List.filter_filter]
    apply List.filter_congr
    intro x _
    show ball_pred d c r false x = (decide (d c x ≠ r) && ball_pred d c r true x)
    simp only [ball_pred, Bool.false_eq_true, if_false, if_true]
    by_cases h1 : d c x < r
    · rw [decide_eq_true h1, decide_eq_true (ne_of_lt h1), decide_eq_true (le_of_lt h1)]
      rfl
    · rw [decide_eq_false h1]
      by_cases h2 : d c x ≤ r
      · have hx : d c x = r := le_antisymm h2 (not_lt.1 h1)
        rw [decide_eq_false (fun hne => hne hx)]
        rfl
      · rw [decide_eq_false h2, Bool.and_false]

/-- Witness for C9 at the same concrete input as C1. -/
theorem vptree_open_ball_query_witness :
    (((vp_insert intDist defaultVPParams idSh 0 [(0:ℤ), 1, 5] 0).1).find_items_within_radius
        intDist 0 1 false).Perm
      ([(0:ℤ), 1, 5].filter (fun s => decide (intDist 0 s < 1))) ∧
    ((vp_insert intDist defaultVPParams idSh 0 [(0:ℤ), 1, 5] 0).1).find_items_within_radius
        intDist 0 1 false =
      (((vp_insert intDist defaultVPParams idSh 0 [(0:ℤ), 1, 5] 0).1).find_items_within_radius
        intDist 0 1 true).filter (fun s => decide (intDist 0 s ≠ 1)) :=
  vptree_open_ball_query intDist intDist_isMetric defaultVPParams idSh
    [(0:ℤ), 1, 5] _ 0 rfl 0 1 (by norm_num)

/-- C5: VP-tree construction is total for every metric (no metric axioms
assumed: degenerate metrics such as the constant-zero metric are allowed),
every shuffle outcome and every max_items_per_node ≥ 3; the bounded shuffle
loop and the leaf fallback make the recursion terminate, and the resulting
tree has len(tree) == number of inserted items. -/
theorem vptree_construction_total_size {α : Type} [DecidableEq α]
    (d : α → α → ℚ) (p : VPParams) (sh : ℕ → List α → List α)
    (items : List α) (hp : 3 ≤ p.max_items_per_node) :
    ∃ t ctr, vp_construct d p sh items = Except.ok (t, ctr) ∧
      t.size = items.length := by
  refine ⟨(vp_insert d p sh 0 items 0).1, (vp_insert d p sh 0 items 0).2, ?_, ?_⟩
  · unfold vp_construct
    rw [if_neg (not_lt.mpr hp)]
  · rw [size_eq_contents_length]
    exact (vp_insert_contents_perm d p sh 0 items 0).length_eq

/-- Witness for C5: the constant-zero metric over [0, 1] with
max_items_per_node = 3. -/
theorem vptree_construction_total_size_witness :
    ∃ (t : VantagePointTree ℤ) (ctr : ℕ),
      vp_construct (fun _ _ => 0) ⟨3, 20, 1/100, 5⟩ idSh [(0:ℤ), 1] =
        Except.ok (t, ctr) ∧ t.size = [(0:ℤ), 1].length :=
  vptree_construction_total_size (fun _ _ => 0) ⟨3, 20, 1/100, 5⟩ idSh
    [(0:ℤ), 1] (by norm_num)

/- ------------------------------------------------------------------ -/
/- Lemmas about label canonicalization.                               -/
/- ------------------------------------------------------------------ -/

theorem foldl_insertFirst_mem (v : List ℤ) :
    ∀ (acc : List ℤ) (x : ℤ),
      x ∈ v.foldl (fun acc y => if y = -1 ∨ y ∈ acc then acc else acc ++ [y]) acc ↔
        x ∈ acc ∨ (x ∈ v ∧ x ≠ -1) := by
  induction v with
  | nil =>
    intro acc x
    simp
  | cons y ys ih =>
    intro acc x
    rw [List.foldl_cons, ih]
    by_cases hy : y = -1 ∨ y ∈ acc
    · rw [if_pos hy]
      constructor
      · rintro (h | ⟨h1, h2⟩)
        · exact Or.inl h
        · exact Or.inr ⟨List.mem_cons_of_mem y h1, h2⟩
      · rintro (h | ⟨h1, h2⟩)
        · exact Or.inl h
        · rcases List.mem_cons.1 h1 with h3 | h3
          · subst h3
            rcases hy with h4 | h4
            · exact absurd h4 h2
            · exact Or.inl h4
          · exact Or.inr ⟨h3, h2⟩
    · rw [if_neg hy]
      push_neg at hy
      constructor
      · rintro (h | ⟨h1, h2⟩)
        · rcases List.mem_append.1 h with h3 | h3
          · exact Or.inl h3
          · have : x = y := by simpa using h3
            subst this
            exact Or.inr ⟨List.mem_cons_self x ys, hy.1⟩
        · exact Or.inr ⟨List.mem_cons_of_mem y h1, h2⟩
      · rintro (h | ⟨h1, h2⟩)
        · exact Or.inl (List.mem_append.2 (Or.inl h))
        · rcases List.mem_cons.1 h1 with h3 | h3
          · subst h3
            exact Or.inl (List.mem_append.2 (Or.inr (by simp)))
          · exact Or.inr ⟨h3, h2⟩

theorem mem_distinctNonOutlier {v : List ℤ} {x : ℤ} :
    x ∈ distinctNonOutlier v ↔ x ∈ v ∧ x ≠ -1 := by
  rw [distinctNonOutlier, foldl_insertFirst_mem]
  simp

theorem foldl_insertFirst_nodup (v : List ℤ) :
    ∀ (acc : List ℤ), acc.Nodup →
      (v.foldl (fun acc y => if y = -1 ∨ y ∈ acc then acc else acc ++ [y]) acc).Nodup := by
  induction v with
  | nil =>
    intro acc h
    exact h
  | cons y ys ih =>
    intro acc h
    rw [List.foldl_cons]
    by_cases hy : y = -1 ∨ y ∈ acc
    · rw [if_pos hy]
      exact ih acc h
    · rw [if_neg hy]
      push_neg at hy
      refine ih _ ?_
      rw [List.nodup_append]
      exact ⟨h, List.nodup_singleton y, by simpa using hy.2⟩

theorem nodup_distinctNonOutlier (v : List ℤ) : (distinctNonOutlier v).Nodup :=
  foldl_insertFirst_nodup v [] List.nodup_nil

/-- The sorted old labels (`sorted_old_labels` in `_remap_by_size`). -/
def oldLabels (v : List ℤ) : List ℤ := (sortedSizesAndLabels v).map Prod.snd

theorem remap_by_size_eq_map (v : List ℤ) :
    remap_by_size v = v.map (fun old =>
      if old = -1 then -1 else ((oldLabels v).indexOf old : ℤ)) := rfl

theorem sortedSizesAndLabels_perm (v : List ℤ) :
    (sortedSizesAndLabels v).Perm
      ((distinctNonOutlier v).map (fun l => (v.count l, l))) :=
  List.perm_insertionSort DescSL _

theorem sortedSizesAndLabels_sorted (v : List ℤ) :
    List.Sorted DescSL (sortedSizesAndLabels v) :=
  List.sorted_insertionSort DescSL _

theorem oldLabels_perm (v : List ℤ) :
    (oldLabels v).Perm (distinctNonOutlier v) := by
  have h := (sortedSizesAndLabels_perm v).map Prod.snd
  rw [List.map_map] at h
  have hc : (Prod.snd ∘ fun l : ℤ => (v.count l, l)) = id := rfl
  rw [hc, List.map_id] at h
  exact h

theorem mem_oldLabels {v : List ℤ} {x : ℤ} :
    x ∈ oldLabels v ↔ x ∈ v ∧ x ≠ -1 := by
  rw [(oldLabels_perm v).mem_iff]
  exact mem_distinctNonOutlier

theorem nodup_oldLabels (v : List ℤ) : (oldLabels v).Nodup :=
  (oldLabels_perm v).nodup_iff.2 (nodup_distinctNonOutlier v)

theorem sortedSizesAndLabels_fst {v : List ℤ} {p : ℕ × ℤ}
    (hp : p ∈ sortedSizesAndLabels v) : p.1 = v.count p.2 := by
  have h := (sortedSizesAndLabels_perm v).mem_iff.1 hp
  rcases List.mem_map.1 h with ⟨l, _, hl⟩
  rw [← hl]

/-- The per-entry relabelling function applied by `_remap_by_size` (the
dictionary `remap_labels`, as a total function). -/
def remapFn (v : List ℤ) : ℤ → ℤ :=
  fun old => if old = -1 then -1 else ((oldLabels v).indexOf old : ℤ)

theorem remap_by_size_eq_map_fn (v : List ℤ) :
    remap_by_size v = v.map (remapFn v) := rfl

theorem remapFn_eq_neg_iff {v : List ℤ} {x : ℤ} (hx : x ∈ v ∨ x = -1) :
    (remapFn v x = -1 ↔ x = -1) := by
  constructor
  · intro h
    by_contra hne
    rw [remapFn, if_neg hne] at h
    omega
  · intro h
    rw [remapFn, if_pos h]

theorem remapFn_inj {v : List ℤ} {x y : ℤ} (hx : x ∈ v ∨ x = -1)
    (hy : y ∈ v ∨ y = -1) (h : remapFn v x = remapFn v y) : x = y := by
  by_cases hx1 : x = -1
  · have : remapFn v y = -1 := by
      rw [← h, remapFn, if_pos hx1]
    have hy1 := (remapFn_eq_neg_iff hy).1 this
    rw [hx1, hy1]
  · by_cases hy1 : y = -1
    · have : remapFn v x = -1 := by
        rw [h, remapFn, if_pos hy1]
      exact absurd ((remapFn_eq_neg_iff hx).1 this) hx1
    · rw [remapFn, if_neg hx1, remapFn, if_neg hy1] at h
      have h2 : (oldLabels v).indexOf x = (oldLabels v).indexOf y := by
        exact_mod_cast h
      have hxm : x ∈ oldLabels v :=
        mem_oldLabels.2 ⟨hx.resolve_right hx1, hx1⟩
      have hym : y ∈ oldLabels v :=
        mem_oldLabels.2 ⟨hy.resolve_right hy1, hy1⟩
      exact (List.indexOf_inj hxm hym).1 h2

theorem getD_remap_by_size (v : List ℤ) (j : ℕ) :
    (remap_by_size v).getD j (-1) = remapFn v (v.getD j (-1)) := by
  rw [remap_by_size_eq_map_fn]
  rcases Nat.lt_or_ge j v.length with hj | hj
  · rw [List.getD_eq_getElem _ _ (by simpa using hj), List.getD_eq_getElem _ _ hj,
      List.getElem_map]
  · rw [List.getD_eq_default _ _ (by simpa using hj), List.getD_eq_default _ _ hj]
    rfl

theorem getD_mem_or_neg (v : List ℤ) (j : ℕ) :
    v.getD j (-1) ∈ v ∨ v.getD j (-1) = -1 := by
  rcases Nat.lt_or_ge j v.length with hj | hj
  · rw [List.getD_eq_getElem _ _ hj]
    exact Or.inl (List.getElem_mem hj)
  · rw [List.getD_eq_default _ _ hj]
    exact Or.inr rfl

theorem indexOf_get_of_nodup {l : List ℤ} (h : l.Nodup) (c : ℕ)
    (hc : c < l.length) : l.indexOf (l.get ⟨c, hc⟩) = c := by
  have hmem : l.get ⟨c, hc⟩ ∈ l := l.get_mem c hc
  have hlt := List.indexOf_lt_length.2 hmem
  have hget : l.get ⟨l.indexOf (l.get ⟨c, hc⟩), hlt⟩ = l.get ⟨c, hc⟩ :=
    List.indexOf_get hlt
  have hfin := h.get_inj_iff.1 hget
  exact congrArg Fin.val hfin

theorem count_remap_by_size_lt (v : List ℤ) (c : ℕ)
    (hc : c < (oldLabels v).length) :
    (remap_by_size v).count ((c : ℕ) : ℤ) =
      v.count ((oldLabels v).get ⟨c, hc⟩) := by
  rw [remap_by_size_eq_map_fn]
  have key : ∀ x ∈ v, ((remapFn v x == ((c : ℕ) : ℤ))) =
      (x == (oldLabels v).get ⟨c, hc⟩) := by
    intro x hx
    by_cases hxeq : x = (oldLabels v).get ⟨c, hc⟩
    · rw [hxeq, beq_self_eq_true]
      apply beq_iff_eq.2
      have hmem : (oldLabels v).get ⟨c, hc⟩ ∈ oldLabels v := List.get_mem _ c hc
      have hne : (oldLabels v).get ⟨c, hc⟩ ≠ -1 := (mem_oldLabels.1 hmem).2
      rw [remapFn, if_neg hne, indexOf_get_of_nodup (nodup_oldLabels v) c hc]
    · rw [beq_eq_false_iff_ne.2 hxeq]
      apply beq_eq_false_iff_ne.2
      intro habs
      by_cases hx1 : x = -1
      · rw [remapFn, if_pos hx1] at habs
        omega
      · rw [remapFn, if_neg hx1] at habs
        have h3 : (oldLabels v).indexOf x = c := by exact_mod_cast habs
        have hxm : x ∈ oldLabels v := mem_oldLabels.2 ⟨hx, hx1⟩
        have hlt := List.indexOf_lt_length.2 hxm
        have hfin : (⟨(oldLabels v).indexOf x, hlt⟩ : Fin (oldLabels v).length) =
            ⟨c, hc⟩ := Fin.ext h3
        have : x = (oldLabels v).get ⟨c, hc⟩ := by
          rw [← hfin]
          exact (List.indexOf_get hlt).symm
        exact hxeq this
  calc (v.map (remapFn v)).count ((c : ℕ) : ℤ)
      = v.countP (fun x => remapFn v x == ((c : ℕ) : ℤ)) := by
        rw [List.count, List.countP_map]
        rfl
    _ = v.countP (fun x => x == (oldLabels v).get ⟨c, hc⟩) :=
        List.countP_congr (fun x hx => by rw [key x hx])
    _ = v.count ((oldLabels v).get ⟨c, hc⟩) := rfl

theorem count_remap_by_size_ge (v : List ℤ) (c : ℕ)
    (hc : (oldLabels v).length ≤ c) :
    (remap_by_size v).count ((c : ℕ) : ℤ) = 0 := by
  rw [remap_by_size_eq_map_fn, List.count_eq_zero]
  intro h
  rcases List.mem_map.1 h with ⟨x, hx, hfx⟩
  by_cases hx1 : x = -1
  · rw [remapFn, if_pos hx1] at hfx
    omega
  · rw [remapFn, if_neg hx1] at hfx
    have hxm : x ∈ oldLabels v := mem_oldLabels.2 ⟨hx, hx1⟩
    have hlt := List.indexOf_lt_length.2 hxm
    have : ((oldLabels v).indexOf x : ℤ) = (c : ℤ) := hfx
    omega

/-- Strict version of `DescSL`: what actually holds between adjacent entries
of the sorted (size, label) list, since the labels are pairwise distinct. -/
def StrictDescSL (p q : ℕ × ℤ) : Prop := q.1 < p.1 ∨ (p.1 = q.1 ∧ q.2 < p.2)

theorem sortedSizesAndLabels_chain (v : List ℤ) :
    List.Chain' StrictDescSL (sortedSizesAndLabels v) := by
  have hs : List.Pairwise DescSL (sortedSizesAndLabels v) :=
    sortedSizesAndLabels_sorted v
  have hnd : ((sortedSizesAndLabels v).map Prod.snd).Nodup := nodup_oldLabels v
  have hnd2 : List.Pairwise (fun p q : ℕ × ℤ => p.2 ≠ q.2)
      (sortedSizesAndLabels v) := (List.pairwise_map).1 hnd
  have hboth := hs.and hnd2
  refine List.Pairwise.chain' (hboth.imp ?_)
  rintro p q ⟨hd, hne⟩
  rcases hd with h1 | ⟨h1, h2⟩
  · exact Or.inl h1
  · exact Or.inr ⟨h1, lt_of_le_of_ne h2 (Ne.symm hne)⟩

theorem oldLabels_get_eq_snd (v : List ℤ) (c : ℕ)
    (hc : c < (oldLabels v).length) :
    (oldLabels v).get ⟨c, hc⟩ =
      ((sortedSizesAndLabels v).get ⟨c, by simpa [oldLabels] using hc⟩).2 := by
  simp [oldLabels]

theorem count_remap_eq_sorted_fst (v : List ℤ) (c : ℕ)
    (hc : c < (sortedSizesAndLabels v).length) :
    (remap_by_size v).count ((c : ℕ) : ℤ) =
      ((sortedSizesAndLabels v).get ⟨c, hc⟩).1 := by
  have hc2 : c < (oldLabels v).length := by simpa [oldLabels] using hc
  rw [count_remap_by_size_lt v c hc2, oldLabels_get_eq_snd v c hc2]
  exact (sortedSizesAndLabels_fst ((sortedSizesAndLabels v).get_mem c hc)).symm

theorem count_remap_succ_le (v : List ℤ) (c : ℕ) :
    (remap_by_size v).count (((c + 1 : ℕ)) : ℤ) ≤
      (remap_by_size v).count ((c : ℕ) : ℤ) := by
  rcases Nat.lt_or_ge (c + 1) (sortedSizesAndLabels v).length with hc | hc
  · have hcc : c < (sortedSizesAndLabels v).length := Nat.lt_of_succ_lt hc
    rw [count_remap_eq_sorted_fst v (c + 1) hc, count_remap_eq_sorted_fst v c hcc]
    have hchain := List.chain'_iff_get.1 (sortedSizesAndLabels_chain v) c (by omega)
    rcases hchain with h1 | ⟨h1, _⟩
    · exact Nat.le_of_lt h1
    · exact Nat.le_of_eq h1.symm
  · rw [count_remap_by_size_ge v (c + 1) (by simpa [oldLabels] using hc)]
    exact Nat.zero_le _

theorem count_remap_le_zero (v : List ℤ) (c : ℕ) :
    (remap_by_size v).count ((c : ℕ) : ℤ) ≤
      (remap_by_size v).count ((0 : ℤ)) := by
  induction c with
  | zero => exact Nat.le_refl _
  | succ c ih => exact Nat.le_trans (count_remap_succ_le v c) ih

theorem remap_mem_range {v : List ℤ} {x : ℤ} (hx : x ∈ remap_by_size v) :
    x = -1 ∨ (0 ≤ x ∧ x < ((oldLabels v).length : ℤ)) := by
  rw [remap_by_size_eq_map_fn] at hx
  rcases List.mem_map.1 hx with ⟨y, hy, hfx⟩
  by_cases hy1 : y = -1
  · rw [remapFn, if_pos hy1] at hfx
    exact Or.inl hfx.symm
  · rw [remapFn, if_neg hy1] at hfx
    have hym : y ∈ oldLabels v := mem_oldLabels.2 ⟨hy, hy1⟩
    have hlt := List.indexOf_lt_length.2 hym
    rw [← hfx]
    refine Or.inr ⟨Int.ofNat_nonneg _, ?_⟩
    exact_mod_cast hlt

theorem remap_mem_of_lt (v : List ℤ) (c : ℕ)
    (hc : c < (oldLabels v).length) : ((c : ℕ) : ℤ) ∈ remap_by_size v := by
  rw [← List.count_pos_iff_mem, count_remap_by_size_lt v c hc]
  rw [List.count_pos_iff_mem]
  have hmem : (oldLabels v).get ⟨c, hc⟩ ∈ oldLabels v := List.get_mem _ c hc
  exact (mem_oldLabels.1 hmem).1

theorem cluster_items_ok {α : Type} [DecidableEq α] [Inhabited α]
    (items : List α) (d : α → α → ℚ) (minSize : ℤ) (eps : ℚ)
    (sh : ℕ → List (ℕ × α) → List (ℕ × α))
    (h1 : 1 < minSize) (h2 : 0 < eps) :
    cluster_items items d minSize eps sh =
      Except.ok (remap_by_size (cluster_items_raw items d minSize eps sh)) := by
  unfold cluster_items
  rw [if_neg (by omega), if_neg (not_le.2 h2)]

theorem cluster_items_ok_elim {α : Type} [DecidableEq α] [Inhabited α]
    {items : List α} {d : α → α → ℚ} {minSize : ℤ} {eps : ℚ}
    {sh : ℕ → List (ℕ × α) → List (ℕ × α)} {labels : List ℤ}
    (hok : cluster_items items d minSize eps sh = Except.ok labels) :
    labels = remap_by_size (cluster_items_raw items d minSize eps sh) := by
  unfold cluster_items at hok
  by_cases hc1 : minSize ≤ 1
  · rw [if_pos hc1] at hok
    exact Except.noConfusion hok
  · rw [if_neg hc1] at hok
    by_cases hc2 : eps ≤ 0
    · rw [if_pos hc2] at hok
      exact Except.noConfusion hok
    · rw [if_neg hc2] at hok
      exact (Except.ok.inj hok).symm

/-- C7: `cluster_items` rejects minimum_cluster_size ≤ 1 and (for valid
cluster sizes) maximum_neighbor_distance ≤ 0 with the documented ValueError
messages, before the index is built or the metric is consulted (the error is
the same for every metric and item list); with valid parameters no such error
is raised.  Likewise `VantagePointTree.__init__` rejects
max_items_per_node < 3 before computing any distance, and accepts
max_items_per_node ≥ 3. -/
theorem parameter_validation {α : Type} [DecidableEq α] [Inhabited α]
    (items : List α) (d : α → α → ℚ) (minSize : ℤ) (eps : ℚ)
    (sh : ℕ → List (ℕ × α) → List (ℕ × α)) (p : VPParams)
    (d2 : α → α → ℚ) (sh2 : ℕ → List α → List α) (items2 : List α) :
    (minSize ≤ 1 → cluster_items items d minSize eps sh =
        Except.error "DBSCAN: minimum cluster size must be at least 2.") ∧
    (1 < minSize → eps ≤ 0 → cluster_items items d minSize eps sh =
        Except.error "DBSCAN: maximum neighbor distance must be positive") ∧
    (1 < minSize → 0 < eps →
      ∃ labels, cluster_items items d minSize eps sh = Except.ok labels) ∧
    (p.max_items_per_node < 3 → vp_construct d2 p sh2 items2 =
        Except.error "max_items_per_node must be at least 3.") ∧
    (3 ≤ p.max_items_per_node →
      ∃ tc, vp_construct d2 p sh2 items2 = Except.ok tc) := by
  refine ⟨?_, ?_, ?_, ?_, ?_⟩
  · intro h
    unfold cluster_items
    rw [if_pos h]
  · intro h1 h2
    unfold cluster_items
    rw [if_neg (by omega), if_pos h2]
  · intro h1 h2
    exact ⟨_, cluster_items_ok items d minSize eps sh h1 h2⟩
  · intro h
    unfold vp_construct
    rw [if_pos h]
  · intro h
    unfold vp_construct
    rw [if_neg (not_lt.2 h)]
    exact ⟨_, rfl⟩

/-- Witness for C7 at concrete inputs: minPts = 1, eps = 0, a valid call, and
max_items_per_node = 2. -/
theorem parameter_validation_witness :
    cluster_items [(0 : ℤ)] intDist 1 1 idSh =
      Except.error "DBSCAN: minimum cluster size must be at least 2." ∧
    cluster_items [(0 : ℤ)] intDist 2 0 idSh =
      Except.error "DBSCAN: maximum neighbor distance must be positive" ∧
    (∃ labels, cluster_items [(0 : ℤ)] intDist 2 1 idSh = Except.ok labels) ∧
    vp_construct intDist ⟨2, 20, 1/100, 5⟩ idSh [(0 : ℤ)] =
      Except.error "max_items_per_node must be at least 3." ∧
    (∃ tc, vp_construct intDist ⟨3, 20, 1/100, 5⟩ idSh [(0 : ℤ)] = Except.ok tc) :=
  ⟨(parameter_validation [(0 : ℤ)] intDist 1 1 idSh defaultVPParams intDist idSh []).1
      (by norm_num),
   (parameter_validation [(0 : ℤ)] intDist 2 0 idSh defaultVPParams intDist idSh []).2.1
      (by norm_num) (by norm_num),
   (parameter_validation [(0 : ℤ)] intDist 2 1 idSh defaultVPParams intDist idSh []).2.2.1
      (by norm_num) (by norm_num),
   (parameter_validation [(0 : ℤ)] intDist 2 1 idSh ⟨2, 20, 1/100, 5⟩ intDist idSh
      [(0 : ℤ)]).2.2.2.1 (by norm_num),
   (parameter_validation [(0 : ℤ)] intDist 2 1 idSh ⟨3, 20, 1/100, 5⟩ intDist idSh
      [(0 : ℤ)]).2.2.2.2 (by norm_num)⟩

/-- C4: the vector returned by `cluster_items` is `_remap_by_size` of the
expansion vector; outlier positions keep -1, the new ids are assigned in
descending cluster size with ties broken by descending original label id
(the sorted (size, label) list is strictly descending lexicographically), the
per-id counts are non-increasing, and cluster 0 is the largest non-outlier
cluster. -/
theorem cluster_items_canonical_order {α : Type} [DecidableEq α] [Inhabited α]
    (items : List α) (d : α → α → ℚ) (minSize : ℤ) (eps : ℚ)
    (sh : ℕ → List (ℕ × α) → List (ℕ × α)) (labels : List ℤ)
    (hok : cluster_items items d minSize eps sh = Except.ok labels) :
    ∃ raw : List ℤ, labels = remap_by_size raw ∧
      (∀ j : ℕ, labels.getD j (-1) = -1 ↔ raw.getD j (-1) = -1) ∧
      List.Chain' StrictDescSL (sortedSizesAndLabels raw) ∧
      (∀ c : ℕ, labels.count (((c + 1 : ℕ)) : ℤ) ≤ labels.count ((c : ℕ) : ℤ)) ∧
      (∀ c : ℕ, labels.count ((c : ℕ) : ℤ) ≤ labels.count ((0 : ℤ))) := by
  refine ⟨cluster_items_raw items d minSize eps sh, cluster_items_ok_elim hok, ?_, ?_, ?_, ?_⟩
  · intro j
    rw [cluster_items_ok_elim hok, getD_remap_by_size]
    exact remapFn_eq_neg_iff (getD_mem_or_neg _ j)
  · exact sortedSizesAndLabels_chain _
  · intro c
    rw [cluster_items_ok_elim hok]
    exact count_remap_succ_le _ c
  · intro c
    rw [cluster_items_ok_elim hok]
    exact count_remap_le_zero _ c

/-- Witness for C4 at a concrete input: two identical integers, minPts = 2,
eps = 1 cluster into a single cluster labelled 0. -/
theorem cluster_items_canonical_order_witness :
    ∃ raw : List ℤ, ([0, 0] : List ℤ) = remap_by_size raw ∧
      (∀ j : ℕ, ([0, 0] : List ℤ).getD j (-1) = -1 ↔ raw.getD j (-1) = -1) ∧
      List.Chain' StrictDescSL (sortedSizesAndLabels raw) ∧
      (∀ c : ℕ, ([0, 0] : List ℤ).count (((c + 1 : ℕ)) : ℤ) ≤
        ([0, 0] : List ℤ).count ((c : ℕ) : ℤ)) ∧
      (∀ c : ℕ, ([0, 0] : List ℤ).count ((c : ℕ) : ℤ) ≤
        ([0, 0] : List ℤ).count ((0 : ℤ))) :=
  cluster_items_canonical_order [(0 : ℤ), 0] intDist 2 1 idSh [0, 0] (by decide)

/-- C10 (implicit): `_remap_by_size` preserves the clustering partition —
the output has the same length, a position is -1 in the output iff it was -1
in the input, and two positions carry equal labels in the output iff they did
in the input (positions out of range read as the default -1). -/
theorem remap_by_size_preserves_partition (v : List ℤ) :
    (remap_by_size v).length = v.length ∧
    (∀ j : ℕ, (remap_by_size v).getD j (-1) = -1 ↔ v.getD j (-1) = -1) ∧
    (∀ i j : ℕ, ((remap_by_size v).getD i (-1) = (remap_by_size v).getD j (-1) ↔
      v.getD i (-1) = v.getD j (-1))) := by
  refine ⟨?_, ?_, ?_⟩
  · rw [remap_by_size_eq_map_fn, List.length_map]
  · intro j
    rw [getD_remap_by_size]
    exact remapFn_eq_neg_iff (getD_mem_or_neg v j)
  · intro i j
    rw [getD_remap_by_size, getD_remap_by_size]
    constructor
    · intro h
      exact remapFn_inj (getD_mem_or_neg v i) (getD_mem_or_neg v j) h
    · intro h
      rw [h]

/-- C2 counterexample: on the integer line [0, 1, 1, 2, 3, 4, 5, 5] with
minimum_cluster_size = 4 and maximum_neighbor_distance = 1, the point at
value 3 (index 4) is claimed as a border item by cluster 0 before the core
item at value 4 (index 5) is processed, so cluster 1 ends up with only 3 < 4
members. -/
theorem cluster_items_small_cluster_cex :
    cluster_items [(0 : ℤ), 1, 1, 2, 3, 4, 5, 5] intDist 4 1 idSh =
      Except.ok [0, 0, 0, 0, 0, 1, 1, 1] ∧
    (1 : ℤ) ∈ ([0, 0, 0, 0, 0, 1, 1, 1] : List ℤ) ∧
    List.count (1 : ℤ) ([0, 0, 0, 0, 0, 1, 1, 1] : List ℤ) = 3 ∧
    (3 : ℤ) < 4 := by
  refine ⟨by decide, by decide, by decide, by decide⟩

/-- C2 amended: in the label vector returned by `cluster_items`, the
non-outlier labels are exactly 0..K-1 for some K and every such cluster id
labels at least ONE position; the lower bound of minimum_cluster_size members
per cluster does not hold, because a border item of the seed neighborhood may
already have been claimed by an earlier cluster
(`cluster_items_small_cluster_cex`). -/
theorem cluster_items_clusters_nonempty {α : Type} [DecidableEq α]
    [Inhabited α] (items : List α) (d : α → α → ℚ) (minSize : ℤ) (eps : ℚ)
    (sh : ℕ → List (ℕ × α) → List (ℕ × α)) (labels : List ℤ)
    (hok : cluster_items items d minSize eps sh = Except.ok labels) :
    ∃ K : ℕ, (∀ x ∈ labels, x = -1 ∨ (0 ≤ x ∧ x < (K : ℤ))) ∧
      (∀ c : ℕ, c < K → ((c : ℕ) : ℤ) ∈ labels) := by
  have hl := cluster_items_ok_elim hok
  refine ⟨(oldLabels (cluster_items_raw items d minSize eps sh)).length, ?_, ?_⟩
  · intro x hx
    rw [hl] at hx
    exact remap_mem_range hx
  · intro c hc
    rw [hl]
    exact remap_mem_of_lt _ c hc

/-- Witness for the amended C2 at a concrete input. -/
theorem cluster_items_clusters_nonempty_witness :
    ∃ K : ℕ, (∀ x ∈ ([0, 0] : List ℤ), x = -1 ∨ (0 ≤ x ∧ x < (K : ℤ))) ∧
      (∀ c : ℕ, c < K → ((c : ℕ) : ℤ) ∈ ([0, 0] : List ℤ)) :=
  cluster_items_clusters_nonempty [(0 : ℤ), 0] intDist 2 1 idSh [0, 0] (by decide)

/-- C3 counterexample: [0, 0, 1, 1] is canonical (labels 0 and 1, counts 2 ≥ 2
non-increasing), yet `_remap_by_size` swaps the two equal-sized clusters
(ties are broken by DESCENDING original id), so it is not a no-op and not
idempotent. -/
theorem remap_by_size_not_idempotent_cex :
    (∀ x ∈ ([0, 0, 1, 1] : List ℤ), x = 0 ∨ x = 1) ∧
    List.count (1 : ℤ) ([0, 0, 1, 1] : List ℤ) ≤
      List.count (0 : ℤ) ([0, 0, 1, 1] : List ℤ) ∧
    remap_by_size [0, 0, 1, 1] = [1, 1, 0, 0] ∧
    remap_by_size [0, 0, 1, 1] ≠ [0, 0, 1, 1] ∧
    remap_by_size (remap_by_size [0, 0, 1, 1]) ≠ remap_by_size [0, 0, 1, 1] := by
  refine ⟨by decide, by decide, by decide, by decide, by decide⟩

/-- C3 amended: `_remap_by_size` is a no-op on a canonical vector whose
cluster sizes are STRICTLY decreasing (pairwise distinct); with tied sizes the
descending-original-id tie-break permutes the tied labels, so idempotence
fails in general (`remap_by_size_not_idempotent_cex`). -/
theorem remap_by_size_noop_of_strict_sizes (v : List ℤ) (K : ℕ)
    (hrange : ∀ x ∈ v, x = -1 ∨ ∃ c : ℕ, c < K ∧ x = (c : ℤ))
    (hmem : ∀ c : ℕ, c < K → ((c : ℕ) : ℤ) ∈ v)
    (hstrict : ∀ c : ℕ, c + 1 < K →
      v.count (((c + 1 : ℕ)) : ℤ) < v.count ((c : ℕ) : ℤ)) :
    remap_by_size v = v := by
  have hanti : ∀ j : ℕ, j < K → ∀ i : ℕ, i < j →
      v.count ((j : ℕ) : ℤ) < v.count ((i : ℕ) : ℤ) := by
    intro j
    induction j with
    | zero =>
      intro _ i h
      exact absurd h (Nat.not_lt_zero i)
    | succ j ih =>
      intro hjK i hij
      have hj : v.count ((j + 1 : ℕ) : ℤ) < v.count ((j : ℕ) : ℤ) := hstrict j hjK
      rcases Nat.lt_or_ge i j with h | h
      · exact hj.trans (ih (by omega) i h)
      · have hi : i = j := by omega
        subst hi
        exact hj
  have hT : sortedSizesAndLabels v =
      (List.range K).map (fun c : ℕ => (v.count ((c : ℕ) : ℤ), ((c : ℕ) : ℤ))) := by
    have hndrc : ((List.range K).map (fun c : ℕ => ((c : ℕ) : ℤ))).Nodup :=
      (List.nodup_range K).map (fun a b => by exact_mod_cast id)
    have hpermd : (distinctNonOutlier v).Perm
        ((List.range K).map (fun c : ℕ => ((c : ℕ) : ℤ))) := by
      rw [List.perm_ext_iff_of_nodup (nodup_distinctNonOutlier v) hndrc]
      intro x
      rw [mem_distinctNonOutlier]
      constructor
      · rintro ⟨hxv, hx1⟩
        rcases hrange x hxv with h | ⟨c, hc, hcx⟩
        · exact absurd h hx1
        · exact List.mem_map.2 ⟨c, List.mem_range.2 hc, hcx.symm⟩
      · intro hx
        rcases List.mem_map.1 hx with ⟨c, hc, hcx⟩
        subst hcx
        exact ⟨hmem c (List.mem_range.1 hc), by omega⟩
    have hperm2 : (sortedSizesAndLabels v).Perm
        ((List.range K).map (fun c : ℕ => (v.count ((c : ℕ) : ℤ), ((c : ℕ) : ℤ)))) := by
      refine (sortedSizesAndLabels_perm v).trans ?_
      have h3 := hpermd.map (fun l : ℤ => (v.count l, l))
      rw [List.map_map] at h3
      exact h3
    have hsorted2 : List.Sorted DescSL
        ((List.range K).map (fun c : ℕ => (v.count ((c : ℕ) : ℤ), ((c : ℕ) : ℤ)))) := by
      rw [List.Sorted, List.pairwise_iff_getElem]
      intro i j hi hj hij
      simp only [List.getElem_map, List.getElem_range] at *
      have hjK : j < K := by simpa using hj
      have hijK : i < j := hij
      exact Or.inl (hanti j hjK i hijK)
    exact List.eq_of_perm_of_sorted hperm2 (sortedSizesAndLabels_sorted v) hsorted2
  have hold : oldLabels v = (List.range K).map (fun c : ℕ => ((c : ℕ) : ℤ)) := by
    rw [oldLabels, hT, List.map_map]
    rfl
  rw [remap_by_size_eq_map_fn]
  have hcongr : ∀ x ∈ v, remapFn v x = x := by
    intro x hxv
    rcases hrange x hxv with h | ⟨c, hc, hcx⟩
    · rw [h, remapFn, if_pos rfl]
    · subst hcx
      rw [remapFn, if_neg (by omega)]
      rw [hold]
      have hc2 : c < ((List.range K).map (fun c : ℕ => ((c : ℕ) : ℤ))).length := by
        simpa using hc
      have hget : ((List.range K).map (fun c : ℕ => ((c : ℕ) : ℤ))).get ⟨c, hc2⟩ =
          ((c : ℕ) : ℤ) := by
        simp
      have hnd : ((List.range K).map (fun c : ℕ => ((c : ℕ) : ℤ))).Nodup :=
        (List.nodup_range K).map (fun a b => by exact_mod_cast id)
      have hidx := indexOf_get_of_nodup hnd c hc2
      rw [hget] at hidx
      rw [hidx]
  rw [List.map_congr_left hcongr]
  exact List.map_id v

/-- Witness for the amended C3: [0, 0, 1] has cluster sizes 2 > 1 and is left
unchanged by the remap. -/
theorem remap_by_size_noop_of_strict_sizes_witness :
    remap_by_size [0, 0, 1] = [0, 0, 1] :=
  remap_by_size_noop_of_strict_sizes [0, 0, 1] 2 (by decide)
    (by
      intro c hc
      match c, hc with
      | 0, _ => decide
      | 1, _ => decide)
    (by
      intro c hc
      have hc0 : c = 0 := by omega
      subst hc0
      decide)

/-- C6 (code bug): the guard at the top of `insert` tests only `_anchor`,
`_nearby_children` and `_distant_children`, never `_local_items`.  The tree
the constructor builds over [0, 1, 2] with default parameters is a populated
LEAF; calling insert([17]) on it does NOT raise AlreadyPopulated — it returns
normally and silently replaces the contents with [17], contradicting insert's
own docstring ("Raises RuntimeError: Node is already populated").  Only an
inner node triggers the error. -/
theorem insert_populated_leaf_overwrites :
    vp_construct intDist defaultVPParams idSh [(0 : ℤ), 1, 2] =
      Except.ok (VantagePointTree.leaf [(0 : ℤ), 1, 2], 0) ∧
    (VantagePointTree.leaf [(0 : ℤ), 1, 2]).toObj =
      VPObj.mk (some [(0 : ℤ), 1, 2]) none ∧
    vp_obj_insert intDist defaultVPParams idSh 0
        (VPObj.mk (some [(0 : ℤ), 1, 2]) none) [17] 0 =
      Except.ok (VPObj.mk (some [(17 : ℤ)]) none, 0) ∧
    vp_obj_insert intDist defaultVPParams idSh 0
        (VPObj.mk none (some ((0 : ℤ), 0, VPObj.mk (some []) none,
          VPObj.mk (some []) none))) [17] 0 =
      Except.error "Vantage point tree is already populated.  You can only call insert() on an empty tree." := by
  refine ⟨rfl, rfl, rfl, rfl⟩

/-- `distances_with_items` recomputed as plain item filters: projecting the
paired filters of `_split_nearby_distant` back to items. -/
theorem pairs_filter_le {α : Type} (d : α → α → ℚ) (a : α) (l : List α)
    (m : ℚ) :
    ((l.map (fun it => (d a it, it))).filter
        (fun p => decide (p.1 ≤ m))).map Prod.snd =
      l.filter (fun it => decide (d a it ≤ m)) := by
  induction l with
  | nil => rfl
  | cons x xs ih =>
    simp only [List.map_cons, List.filter_cons]
    by_cases hx : d a x ≤ m
    · rw [if_pos (by simpa using hx), if_pos (by simpa using hx)]
      simp only [List.map_cons, ih]
    · rw [if_neg (by simpa using hx), if_neg (by simpa using hx)]
      exact ih

theorem pairs_filter_gt {α : Type} (d : α → α → ℚ) (a : α) (l : List α)
    (m : ℚ) :
    ((l.map (fun it => (d a it, it))).filter
        (fun p => decide (m < p.1))).map Prod.snd =
      l.filter (fun it => decide (m < d a it)) := by
  induction l with
  | nil => rfl
  | cons x xs ih =>
    simp only [List.map_cons, List.filter_cons]
    by_cases hx : m < d a x
    · rw [if_pos (by simpa using hx), if_pos (by simpa using hx)]
      simp only [List.map_cons, ih]
    · rw [if_neg (by simpa using hx), if_neg (by simpa using hx)]
      exact ih

theorem fst_comp_pair {α : Type} (d : α → α → ℚ) (a : α) :
    (Prod.fst ∘ fun it : α => (d a it, it)) = d a := rfl

/-- The median statistic of `_split_nearby_distant` (spec-side notation). -/
def medianDistanceOf {α : Type} (d : α → α → ℚ) (anchor : α)
    (items : List α) : ℚ := medianOf (items.map (d anchor))

/-- The mean statistic of `_split_nearby_distant` (spec-side notation). -/
def meanDistanceOf {α : Type} (d : α → α → ℚ) (anchor : α)
    (items : List α) : ℚ := (items.map (d anchor)).sum / ((items.length : ℕ) : ℚ)

/-- The balance ratio min(|near|, |far|) / max(|near|, |far|) of the partition
at threshold m (spec-side notation). -/
def splitRatioAt {α : Type} (d : α → α → ℚ) (anchor : α) (items : List α)
    (m : ℚ) : ℚ :=
  let nearby := items.filter (fun it => decide (d anchor it ≤ m))
  let distant := items.filter (fun it => decide (m < d anchor it))
  ((min nearby.length distant.length : ℕ) : ℚ) /
    ((max nearby.length distant.length : ℕ) : ℚ)

/-- The selection made by `_split_nearby_distant`, normalized: the median
candidate exactly when its balance ratio is strictly larger than the mean
candidate's, otherwise the mean candidate. -/
theorem split_nearby_distant_norm {α : Type} (d : α → α → ℚ) (anchor : α)
    (items : List α) :
    split_nearby_distant d anchor items =
      if splitRatioAt d anchor items (meanDistanceOf d anchor items) <
          splitRatioAt d anchor items (medianDistanceOf d anchor items) then
        (items.filter (fun it => decide (d anchor it ≤ medianDistanceOf d anchor items)),
         items.filter (fun it => decide (medianDistanceOf d anchor items < d anchor it)),
         medianDistanceOf d anchor items)
      else
        (items.filter (fun it => decide (d anchor it ≤ meanDistanceOf d anchor items)),
         items.filter (fun it => decide (meanDistanceOf d anchor items < d anchor it)),
         meanDistanceOf d anchor items) := by
  dsimp only [split_nearby_distant, splitRatioAt, medianDistanceOf, meanDistanceOf]
  simp only [pairs_filter_le, pairs_filter_gt, List.map_map, fst_comp_pair,
    List.length_map]

/-- C8 amended: `_split_nearby_distant` returns the median candidate (with
the median as threshold) only when its balance ratio is STRICTLY larger than
the mean candidate's; otherwise — including ties — it returns the mean
candidate with the mean as threshold. -/
theorem split_nearby_distant_choice {α : Type} (d : α → α → ℚ) (anchor : α)
    (items : List α) :
    (splitRatioAt d anchor items (meanDistanceOf d anchor items) <
        splitRatioAt d anchor items (medianDistanceOf d anchor items) →
      split_nearby_distant d anchor items =
        (items.filter (fun it => decide (d anchor it ≤ medianDistanceOf d anchor items)),
         items.filter (fun it => decide (medianDistanceOf d anchor items < d anchor it)),
         medianDistanceOf d anchor items)) ∧
    (splitRatioAt d anchor items (medianDistanceOf d anchor items) ≤
        splitRatioAt d anchor items (meanDistanceOf d anchor items) →
      split_nearby_distant d anchor items =
        (items.filter (fun it => decide (d anchor it ≤ meanDistanceOf d anchor items)),
         items.filter (fun it => decide (meanDistanceOf d anchor items < d anchor it)),
         meanDistanceOf d anchor items)) := by
  constructor
  · intro h
    rw [split_nearby_distant_norm, if_pos h]
  · intro h
    rw [split_nearby_distant_norm, if_neg (not_lt.2 h)]

theorem median_114 : medianDistanceOf intDist 0 [1, 1, 4] = 1 := by
  have h1 : intDist 0 1 = 1 := by decide
  have h4 : intDist 0 4 = 4 := by decide
  rw [medianDistanceOf]
  simp only [List.map_cons, List.map_nil, h1, h4]
  decide

theorem mean_114 : meanDistanceOf intDist 0 [1, 1, 4] = 2 := by
  have h1 : intDist 0 1 = 1 := by decide
  have h4 : intDist 0 4 = 4 := by decide
  rw [meanDistanceOf]
  simp only [List.map_cons, List.map_nil, h1, h4, List.sum_cons, List.sum_nil,
    List.length_cons, List.length_nil]
  norm_num

theorem ratio_114_eq :
    splitRatioAt intDist 0 [1, 1, 4] (medianDistanceOf intDist 0 [1, 1, 4]) =
      splitRatioAt intDist 0 [1, 1, 4] (meanDistanceOf intDist 0 [1, 1, 4]) := by
  rw [median_114, mean_114]
  have hfle1 : [1, 1, 4].filter (fun it : ℤ => decide (intDist 0 it ≤ 1)) = [1, 1] := by
    decide
  have hfgt1 : [1, 1, 4].filter (fun it : ℤ => decide ((1 : ℚ) < intDist 0 it)) = [4] := by
    decide
  have hfle2 : [1, 1, 4].filter (fun it : ℤ => decide (intDist 0 it ≤ 2)) = [1, 1] := by
    decide
  have hfgt2 : [1, 1, 4].filter (fun it : ℤ => decide ((2 : ℚ) < intDist 0 it)) = [4] := by
    decide
  rw [splitRatioAt, splitRatioAt]
  simp only [hfle1, hfgt1, hfle2, hfgt2]

/-- C8 counterexample: anchor 0 and items [1, 1, 4] under the integer-line
metric give median 1 and mean 2; both candidate partitions are ([1,1],[4])
with the same balance ratio 1/2, yet `_split_nearby_distant` returns the MEAN
candidate — its threshold is the mean 2, not the median 1 as the claim states
for ties. -/
theorem split_tie_prefers_mean_cex :
    medianDistanceOf intDist 0 [1, 1, 4] = 1 ∧
    meanDistanceOf intDist 0 [1, 1, 4] = 2 ∧
    splitRatioAt intDist 0 [1, 1, 4] (medianDistanceOf intDist 0 [1, 1, 4]) =
      splitRatioAt intDist 0 [1, 1, 4] (meanDistanceOf intDist 0 [1, 1, 4]) ∧
    split_nearby_distant intDist 0 [1, 1, 4] = ([1, 1], [4], 2) ∧
    (split_nearby_distant intDist 0 [1, 1, 4]).2.2 ≠
      medianDistanceOf intDist 0 [1, 1, 4] := by
  have hsplit : split_nearby_distant intDist 0 [1, 1, 4] = ([1, 1], [4], 2) := by
    rw [split_nearby_distant_norm, if_neg (not_lt.2 (le_of_eq ratio_114_eq)),
      mean_114]
    have hfle2 : [1, 1, 4].filter (fun it : ℤ => decide (intDist 0 it ≤ 2)) = [1, 1] := by
      decide
    have hfgt2 : [1, 1, 4].filter (fun it : ℤ => decide ((2 : ℚ) < intDist 0 it)) = [4] := by
      decide
    rw [hfle2, hfgt2]
  refine ⟨median_114, mean_114, ratio_114_eq, hsplit, ?_⟩
  rw [hsplit, median_114]
  decide

/-- Witness for the amended C8 at the tie input [1, 1, 4] (anchor 0): the
mean candidate is returned. -/
theorem split_nearby_distant_choice_witness :
    split_nearby_distant intDist 0 [1, 1, 4] =
      ([1, 1, 4].filter (fun it => decide (intDist 0 it ≤ meanDistanceOf intDist 0 [1, 1, 4])),
       [1, 1, 4].filter (fun it => decide (meanDistanceOf intDist 0 [1, 1, 4] < intDist 0 it)),
       meanDistanceOf intDist 0 [1, 1, 4]) :=
  (split_nearby_distant_choice intDist 0 [1, 1, 4]).2 (le_of_eq ratio_114_eq)

end MetricDbscan
